import Mathlib

/-!
Verification development for the pyplist plist-normalisation core
(`pyplist/utils.py`, `pyplist/core/plist.py`, `pyplist/core/find.py`).

The Python code is shallowly embedded: plist values become the inductive
type `PValue`, Python dicts become association lists (Python dicts have
unique keys and preserve insertion order), byte strings become `List Nat`
(one `Nat` per byte, each < 256), and the BLAKE2b hash object from
`hashlib` is modelled by the byte stream it has consumed, since hashlib
guarantees `h.update(a); h.update(b)` is equivalent to `h.update(a ++ b)`
and the final digest is a pure function of the consumed stream.  The
finalisation `hexdigest` is kept abstract: theorems quantify over the
digest function `H : List Nat → String` applied to the consumed stream,
so two digests are provably equal exactly when the consumed streams are
equal, which is the code-level notion of content identity (the spec
itself equates the digest with "the full sorted stringified value
sequence").

Floating point plist values are omitted from the model: no claim below
depends on host float formatting, and the remaining plist value types
(bool, int, string, bytes, array, dict) are embedded exactly.
-/

/-- A plist value as produced by `plistlib.load`: booleans, integers,
strings, byte strings, arrays and string-keyed dictionaries.  Python
dicts are modelled as association lists in insertion order. -/
inductive PValue where
  | bool (b : Bool)
  | int (n : Int)
  | str (s : String)
  | bytes (bs : List Nat)
  | arr (xs : List PValue)
  | dict (entries : List (String × PValue))

/-- Lowercase hexadecimal digit, as used by Python escape sequences. -/
def hexDigit (n : Nat) : Char :=
  if n < 10 then Char.ofNat (48 + n) else Char.ofNat (87 + n)

/-- Two lowercase hex digits of a byte, as in a Python `\xHH` escape. -/
def hexByte (n : Nat) : List Char :=
  [hexDigit (n / 16 % 16), hexDigit (n % 16)]

/-- The backslash character. -/
def bsChar : Char := Char.ofNat 92

/-- The single-quote character. -/
def sqChar : Char := Char.ofNat 39

/-- The double-quote character. -/
def dqChar : Char := Char.ofNat 34

/-- `repr` of a Python `bytes` object, as a character list: `b` plus a
quoted body.  CPython quotes with a single quote unless the bytes contain
a single quote and no double quote; backslash and the quote are
backslash-escaped, tab/newline/carriage-return use `\t`/`\n`/`\r`, and
all other bytes outside printable ASCII use `\xHH`. -/
def pyBytesReprChars (bs : List Nat) : List Char :=
  let q : Nat := if bs.contains 39 && !(bs.contains 34) then 34 else 39
  let esc : Nat → List Char := fun b =>
    if b == q || b == 92 then [bsChar, Char.ofNat b]
    else if b == 9 then [bsChar, Char.ofNat 116]
    else if b == 10 then [bsChar, Char.ofNat 110]
    else if b == 13 then [bsChar, Char.ofNat 114]
    else if b < 32 || 127 ≤ b then bsChar :: Char.ofNat 120 :: hexByte b
    else [Char.ofNat b]
  Char.ofNat 98 :: Char.ofNat q :: bs.flatMap esc ++ [Char.ofNat q]

/-- `repr` of a Python `str`, as a character list.  Quote choice and
escapes as in CPython; code points below 32, and 127–160, are rendered
as `\xHH`.  (CPython additionally escapes higher non-printable code
points and keeps printable non-ASCII ones; no claim below involves such
characters, all concrete inputs being ASCII, where this is exact.) -/
def pyStrReprChars (cs : List Char) : List Char :=
  let q : Char := if cs.contains sqChar && !(cs.contains dqChar) then dqChar else sqChar
  let esc : Char → List Char := fun c =>
    if c == q || c == bsChar then [bsChar, c]
    else if c == Char.ofNat 9 then [bsChar, Char.ofNat 116]
    else if c == Char.ofNat 10 then [bsChar, Char.ofNat 110]
    else if c == Char.ofNat 13 then [bsChar, Char.ofNat 114]
    else if c.toNat < 32 || (127 ≤ c.toNat && c.toNat ≤ 160) then
      bsChar :: Char.ofNat 120 :: hexByte c.toNat
    else [c]
  q :: cs.flatMap esc ++ [q]

/-- Comma-space joining, as done by `", ".join(...)` inside Python
`repr` of lists and dicts. -/
def joinComma : List String → String
  | [] => ""
  | [s] => s
  | s :: rest => s ++ ", " ++ joinComma rest

mutual
/-- Python `repr` of a plist value: `True`/`False` for booleans, decimal
for integers, quoted-and-escaped forms for strings and bytes, bracketed
comma-joined element reprs for lists, braced `key: value` reprs for
dicts (insertion order). -/
def pyRepr : PValue → String
  | .bool true => "True"
  | .bool false => "False"
  | .int n => toString n
  | .str s => String.mk (pyStrReprChars s.data)
  | .bytes bs => String.mk (pyBytesReprChars bs)
  | .arr xs => "[" ++ joinComma (pyReprList xs) ++ "]"
  | .dict es => "\x7b" ++ joinComma (pyReprEntries es) ++ "\x7d"

/-- `repr` of each element of a Python list, in order. -/
def pyReprList : List PValue → List String
  | [] => []
  | v :: rest => pyRepr v :: pyReprList rest

/-- `repr(key): repr(value)` of each entry of a Python dict, in order. -/
def pyReprEntries : List (String × PValue) → List String
  | [] => []
  | (k, v) :: rest =>
    (String.mk (pyStrReprChars k.data) ++ ": " ++ pyRepr v) :: pyReprEntries rest
end

/-- Python `str` of a plist value: strings are returned as-is, every
other value falls back to its `repr`. -/
def pyStr : PValue → String
  | .str s => s
  | v => pyRepr v

/-- UTF-8 encoding of one character (standard 1–4 byte forms). -/
def utf8Char (c : Char) : List Nat :=
  let n := c.toNat
  if n < 128 then [n]
  else if n < 2048 then [192 + n / 64, 128 + n % 64]
  else if n < 65536 then [224 + n / 4096, 128 + n / 64 % 64, 128 + n % 64]
  else [240 + n / 262144, 128 + n / 4096 % 64, 128 + n / 64 % 64, 128 + n % 64]

/-- `s.encode('utf8')` as a byte list. -/
def utf8Encode (s : String) : List Nat := (s.data.map utf8Char).flatten

/-!  ## `pyplist.utils.json_normalized_plist_dict`

`json_normalized_plist_dict` calls `pd.json_normalize(plist_dict)`,
whose flattening kernel `nested_to_record` walks the dict depth-first:
a dict-valued entry is replaced by the flattening of its sub-dict with
the dot-extended key (an empty sub-dict therefore contributes nothing),
and any non-dict value — scalars, byte strings, and arrays, which are
never descended into — is emitted at its dot-joined key.  The flat
entries are accumulated into a Python dict (`new_d.update(...)`), so a
duplicate dot-joined key overwrites the value already present; the
resulting single-row DataFrame is transposed and read back with
`to_dict`, which preserves the key → value association.  `flattenEntries`
below produces the emitted entries in depth-first order and `pyDict`
models the Python-dict accumulation (insert new keys at the end,
overwrite existing keys in place); the composition is the key → value
mapping `json_normalized_plist_dict` returns.  (pandas interleaves its
insertions in a slightly different order than depth-first emission, but
the resulting key → value mapping is identical, and every consumer
re-sorts by key.) -/

/-- The dot-extended key used by pandas `nested_to_record`: at the top
level the key itself, below it `pre ++ "." ++ key`. -/
def newKey (pre : Option String) (k : String) : String :=
  match pre with
  | none => k
  | some p => p ++ "." ++ k

mutual
/-- Flat entries contributed by one value sitting at flat key `key`:
a dict value is recursed into (pandas `nested_to_record`), every other
value (arrays included) is emitted as a single leaf at `key`. -/
def flattenVal (key : String) : PValue → List (String × PValue)
  | .dict d => flattenEntries (some key) d
  | v => [(key, v)]

/-- Depth-first flat entries of a nested dict, as emitted by pandas
`nested_to_record`: dict values are recursed into with the dot-extended
key, all other values (arrays included) are emitted as leaves. -/
def flattenEntries (pre : Option String) : List (String × PValue) → List (String × PValue)
  | [] => []
  | (k, v) :: rest => flattenVal (newKey pre k) v ++ flattenEntries pre rest
end

/-- Python-dict insertion of one key/value: overwrite in place if the
key is present, append otherwise. -/
def pyUpsert (m : List (String × PValue)) (k : String) (v : PValue) :
    List (String × PValue) :=
  if m.any (fun kv => kv.1 == k) then
    m.map (fun kv => if kv.1 == k then (k, v) else kv)
  else m ++ [(k, v)]

/-- Accumulating a list of key/value pairs into a Python dict. -/
def pyDict (l : List (String × PValue)) : List (String × PValue) :=
  l.foldl (fun m kv => pyUpsert m kv.1 kv.2) []

/-- `pyplist.utils.json_normalized_plist_dict`: the flat, JSON-normalised
key → value mapping of a nested plist dict. -/
def json_normalized_plist_dict (d : List (String × PValue)) : List (String × PValue) :=
  pyDict (flattenEntries none d)

/-!  ## `pyplist.utils.blake2b_hash_iterable` -/

/-- The state of a `hashlib.blake2b()` hash object (default digest
size), modelled by the byte stream consumed so far: hashlib specifies
that `update(a); update(b)` is equivalent to `update(a ++ b)`, so the
digest is a pure function of this stream. -/
structure Blake2b where
  consumed : List Nat

/-- A fresh `hashlib.blake2b()` hasher. -/
def Blake2b.init : Blake2b := ⟨[]⟩

/-- `hasher.update(bs)`. -/
def Blake2b.update (h : Blake2b) (bs : List Nat) : Blake2b := ⟨h.consumed ++ bs⟩

/-- The `to_bytes` helper inside `blake2b_hash_iterable`: byte values
are used verbatim, every other value is stringified and UTF-8 encoded. -/
def to_bytes (v : PValue) : List Nat :=
  match v with
  | .bytes bs => bs
  | v => utf8Encode (pyStr v)

/-- `pyplist.utils.blake2b_hash_iterable`, with the BLAKE2b
finalisation `hexdigest` abstracted as `H` over the consumed stream:
maps `to_bytes` over the values and feeds each byte sequence into the
hasher in turn. -/
def blake2b_hash_iterable (H : List Nat → String) (vals : List PValue) : String :=
  let bytes_iterable := vals.map to_bytes
  H (bytes_iterable.foldl Blake2b.update Blake2b.init).consumed

/-!  ## `pyplist.core.plist.Plist` hash and equality pipeline -/

/-- The key order used by `pandas.Series.sort_index` on string labels:
ascending lexicographic (code-point) order, which is Lean's `≤` on
`String`. -/
def keyLe (a b : String × PValue) : Prop := a.1 ≤ b.1

instance : DecidableRel keyLe := fun a b => inferInstanceAs (Decidable (a.1 ≤ b.1))

/-- `pd.Series(props).sort_index()`: the entries in ascending key
order.  (The mapping read from a Python dict has pairwise-distinct
keys, so its ascending-key order is unique and any correct sort models
`sort_index`.) -/
def sortByKey (l : List (String × PValue)) : List (String × PValue) :=
  l.insertionSort keyLe

/-- `pd.Series(props).sort_index().transform(str)`: the sorted series
with every value replaced by its Python string form; the index (the
keys) is kept alongside. -/
def strSeries (props : List (String × PValue)) : List (String × String) :=
  (sortByKey props).map (fun kv => (kv.1, pyStr kv.2))

/-- `Plist.__hash__` up to the final Python `hash(...)` call: the
BLAKE2b hex digest (abstracted as `H`) of the sorted, stringified
property values.  Iterating a pandas Series yields its values only, so
the keys order the stream but are not themselves hashed. -/
def plistHashDigest (H : List Nat → String) (props : List (String × PValue)) : String :=
  blake2b_hash_iterable H ((strSeries props).map (fun kv => PValue.str kv.2))

/-- The byte stream consumed by the BLAKE2b hasher in `Plist.__hash__`:
the digest is `H` of this stream, so two property mappings have equal
digests (for every digest function) exactly when their streams are
equal. -/
def plistContentStream (props : List (String × PValue)) : List Nat :=
  ((strSeries props).map (fun kv => utf8Encode kv.2)).flatten

/-- `Plist.__eq__`: `pandas.Series.equals` on the two sorted,
stringified property series.  `Series.equals` compares the axes as well
as the values, so both the sorted keys and the sorted stringified
values must coincide. -/
def plistEq (p1 p2 : List (String × PValue)) : Bool :=
  strSeries p1 == strSeries p2

/-!  ## `pyplist.utils.plist_dict_from_path` (the Decoder) -/

/-- Outcome of one `plistlib.load(f, fmt=...)` call on the current file
bytes: `none` when the parser raises (`plistlib.InvalidFileException`
or `xml.parsers.expat.ExpatError`), `some v` when it returns `v` (which
need not be a dict). -/
def ParseOutcome := Option PValue

/-- The decodable content of an existing file: what the binary-format
and XML-format plist parsers make of its bytes. -/
structure FileModel where
  binaryParse : Option PValue
  xmlParse : Option PValue

/-- The argument handed to `plist_dict_from_path`: either a value that
`pathlib.Path(...)` rejects with `TypeError`, or a path whose file is
missing (`none`) or present with the given parse outcomes. -/
inductive PlistInput where
  | notPathLike
  | path (file : Option FileModel)

/-- Error conditions of the decoder.  `notFound` is `FileNotFoundError`
and `invalidFile` is `plistlib.InvalidFileException`.  `invalidInput`
is modelled from the spec: §7 postulates a distinct `InvalidInput`
condition for non-path-like arguments, but the source defines no such
exception — it is included only so that statements about the spec's
taxonomy can be expressed. -/
inductive PlistError where
  | notFound
  | invalidFile
  | invalidInput
deriving DecidableEq

/-- Whether a parse outcome counts as failed in
`plist_dict_from_path`: the parser raised, or it returned a value that
is not a dict (the code then manually raises
`plistlib.InvalidFileException`). -/
def parseFailed : Option PValue → Bool
  | some (.dict _) => false
  | _ => true

/-- `pyplist.utils.plist_dict_from_path`: a non-path-like argument is
a `TypeError` from `Path(...)`, re-raised as
`plistlib.InvalidFileException`; a missing file is `FileNotFoundError`,
re-raised as itself; otherwise the bytes are parsed as a binary plist,
and on parser failure or a non-dict result the same bytes are parsed
as an XML plist with the same dict check; if both fail the decoder
raises `plistlib.InvalidFileException`, and on success it returns the
decoded dict tagged `"binary"` or `"xml"`. -/
def plist_dict_from_path (input : PlistInput) :
    Except PlistError (List (String × PValue) × String) :=
  match input with
  | .notPathLike => .error .invalidFile
  | .path none => .error .notFound
  | .path (some fm) =>
    match fm.binaryParse with
    | some (.dict d) => .ok (d, "binary")
    | _ =>
      match fm.xmlParse with
      | some (.dict d) => .ok (d, "xml")
      | _ => .error .invalidFile

/-!  ## `pyplist.core.plist.Plist` (the entity) -/

/-- A `Plist` object.  `Plist.__init__` stores only the (absolutised)
file path in `self._fp`; no decoded data, and no other state, is ever
cached on the object, so every data access below takes the file's
current state as an explicit argument. -/
structure Plist where
  fp : String

/-- `Plist.__init__`: validate the input by decoding it once, re-raise
every failure (`TypeError`, `FileNotFoundError`,
`plistlib.InvalidFileException`) as `plistlib.InvalidFileException`,
and on success store only the path. -/
def Plist.init (input : PlistInput) (pathStr : String) : Except PlistError Plist :=
  match plist_dict_from_path input with
  | .ok _ => .ok ⟨pathStr⟩
  | .error _ => .error .invalidFile

/-- `Plist.properties`: decode the file's current content afresh and
JSON-normalise it; `FileNotFoundError` and
`plistlib.InvalidFileException` propagate unchanged.  `current` is the
state of the backing file at the time of this access (`none` when the
file has been deleted). -/
def Plist.properties (_p : Plist) (current : Option FileModel) :
    Except PlistError (List (String × PValue)) :=
  match plist_dict_from_path (.path current) with
  | .ok (d, _) => .ok (json_normalized_plist_dict d)
  | .error e => .error e

/-!  ## `pyplist.core.find.find_plist_files`

The directory listing is modelled as the list of (file name, current
file state) pairs the OS enumeration yields; the recursive and
non-recursive branches of the source differ only in how this candidate
list is produced (`os.listdir` vs `os.walk`) and treat each candidate
identically, so one function over the listing models both.  For each
name ending in `.plist` the source tries `Plist(path)` and skips the
candidate on `plistlib.InvalidFileException` — the only exception
`Plist.__init__` can raise. -/

/-- Python `name.endswith(suffix)`: a suffix test on the characters. -/
def pyEndsWith (s suffix : String) : Bool :=
  suffix.data.isSuffixOf s.data

/-- `pyplist.core.find.find_plist_files` over a directory listing. -/
def find_plist_files (listing : List (String × Option FileModel)) : List Plist :=
  (listing.filter (fun nf => pyEndsWith nf.1 ".plist")).filterMap
    (fun nf =>
      match Plist.init (.path nf.2) nf.1 with
      | .ok p => some p
      | .error _ => none)

/-!  ## Spec-side definitions

These definitions follow the wording of the specification, for
comparison with the source-translated functions above. -/

/-- Dot-joining of a key path, per the spec's "the dot-joined path". -/
def dotJoin : List String → String
  | [] => ""
  | [k] => k
  | k :: rest => k ++ "." ++ dotJoin rest

mutual
/-- Leaf paths below one value, per the spec: a nested mapping is
descended into, any other value terminates its path.  Arrays are not
descended into. -/
def specLeafVal : PValue → List (List String × PValue)
  | .dict d => specLeafPaths d
  | v => [([], v)]

/-- The key paths of the spec's flattening invariant: every path
reachable from the root by descending only through nested mappings,
paired with the non-mapping value found at its end. -/
def specLeafPaths : List (String × PValue) → List (List String × PValue)
  | [] => []
  | (k, v) :: rest =>
    (specLeafVal v).map (fun pv => (k :: pv.1, pv.2)) ++ specLeafPaths rest
end

/-- The flattened mapping as the spec describes it: one entry per leaf
path, keyed by the dot-joined path. -/
def specFlatten (d : List (String × PValue)) : List (String × PValue) :=
  (specLeafPaths d).map (fun pv => (dotJoin pv.1, pv.2))

/-!  ## Well-formedness

A Python dict always has pairwise-distinct keys, so an association
list read from `plistlib` satisfies the distinctness part by
construction.  Keys containing a literal dot are the ambiguity the
spec itself flags ("a key containing a literal dot in the source is an
accepted ambiguity"): distinct key paths can then dot-join to the same
flat key and collide.  `wfEntries` records both conditions, applied at
every nested-mapping level (values inside arrays are leaves and need
no condition). -/

/-- No literal dot among the characters of a key. -/
def dotFree (s : String) : Bool := s.data.all (fun c => c != '.')

mutual
/-- Well-formedness of a value: nested mappings are checked
recursively, all other values are unconstrained. -/
def wfVal : PValue → Bool
  | .dict d => wfEntries d
  | _ => true

/-- Well-formedness of one dictionary level: every key is dot-free and
distinct from the later keys, and nested mappings are well-formed. -/
def wfEntries : List (String × PValue) → Bool
  | [] => true
  | (k, v) :: rest =>
    dotFree k && rest.all (fun kv => kv.1 != k) && wfVal v && wfEntries rest
end

mutual
/-- Whether a value resolves only to empty nested mappings: it is a
mapping all of whose values again resolve only to empty nested
mappings (in particular, an empty mapping). -/
def onlyEmptyVal : PValue → Bool
  | .dict d => onlyEmptyEntries d
  | _ => false

/-- Whether every value of a dictionary level resolves only to empty
nested mappings. -/
def onlyEmptyEntries : List (String × PValue) → Bool
  | [] => true
  | (_, v) :: rest => onlyEmptyVal v && onlyEmptyEntries rest
end

/-!  # Lemmas -/

/-!  ## The hash stream -/

theorem Blake2b.foldl_update (l : List (List Nat)) :
    ∀ st : Blake2b, (l.foldl Blake2b.update st).consumed = st.consumed ++ l.flatten := by
  induction l with
  | nil => intro st; simp
  | cons bs rest ih =>
    intro st
    simp [List.foldl_cons, ih, Blake2b.update, List.flatten_cons]

/-- `blake2b_hash_iterable` digests exactly the separator-free
concatenation of the per-value byte sequences: the streaming updates
are extensionally the hash of the concatenation. -/
theorem blake2b_hash_iterable_eq (H : List Nat → String) (vals : List PValue) :
    blake2b_hash_iterable H vals = H ((vals.map to_bytes).flatten) := by
  simp [blake2b_hash_iterable, Blake2b.foldl_update, Blake2b.init]

theorem to_bytes_str (s : String) : to_bytes (.str s) = utf8Encode s := rfl

/-- The digest computed by `Plist.__hash__` is the abstract digest of
the content stream. -/
theorem plistHashDigest_eq_stream (H : List Nat → String) (props : List (String × PValue)) :
    plistHashDigest H props = H (plistContentStream props) := by
  simp [plistHashDigest, blake2b_hash_iterable_eq, plistContentStream, List.map_map]
  rfl

/-- The content stream is the concatenation, in ascending key order,
of the UTF-8 encodings of the Python string forms of the values. -/
theorem plistContentStream_eq (props : List (String × PValue)) :
    plistContentStream props =
      ((sortByKey props).map (fun kv => utf8Encode (pyStr kv.2))).flatten := by
  simp [plistContentStream, strSeries, List.map_map]
  rfl

/-!  ## Sorting by key -/

instance : IsTotal (String × PValue) keyLe := ⟨fun a b => le_total a.1 b.1⟩

instance : IsTrans (String × PValue) keyLe := ⟨fun _ _ _ h1 h2 => le_trans h1 h2⟩

theorem sortByKey_perm (l : List (String × PValue)) : List.Perm (sortByKey l) l :=
  List.perm_insertionSort keyLe l

theorem sortByKey_sorted (l : List (String × PValue)) : List.Sorted keyLe (sortByKey l) :=
  List.sorted_insertionSort keyLe l

/-- Entries sorted by pairwise-distinct keys are determined by the
underlying multiset: two permuted entry lists sort identically. -/
theorem sortByKey_eq_of_perm {l1 l2 : List (String × PValue)} (h : List.Perm l1 l2)
    (hnd : (l1.map Prod.fst).Nodup) : sortByKey l1 = sortByKey l2 := by
  haveI : IsAntisymm (String × PValue) (fun a b => a.1 < b.1) :=
    ⟨fun _ _ h1 h2 => absurd h1 (lt_asymm h2)⟩
  have hperm : List.Perm (sortByKey l1) (sortByKey l2) :=
    (sortByKey_perm l1).trans (h.trans (sortByKey_perm l2).symm)
  have hnd1 : ((sortByKey l1).map Prod.fst).Nodup :=
    (((sortByKey_perm l1).map Prod.fst).nodup_iff).mpr hnd
  have hnd2 : ((sortByKey l2).map Prod.fst).Nodup :=
    (((sortByKey_perm l2).map Prod.fst).nodup_iff).mpr
      (((h.map Prod.fst).nodup_iff).mp hnd)
  have hs1 : (sortByKey l1).Pairwise (fun a b => a.1 < b.1) := by
    have hp := (sortByKey_sorted l1).and (List.pairwise_map.mp hnd1)
    exact hp.imp (fun hab => lt_of_le_of_ne hab.1 hab.2)
  have hs2 : (sortByKey l2).Pairwise (fun a b => a.1 < b.1) := by
    have hp := (sortByKey_sorted l2).and (List.pairwise_map.mp hnd2)
    exact hp.imp (fun hab => lt_of_le_of_ne hab.1 hab.2)
  exact List.eq_of_perm_of_sorted hperm hs1 hs2

/-!  ## Python-dict accumulation -/

theorem pyUpsert_of_not_mem {m : List (String × PValue)} {k : String} (v : PValue)
    (h : ∀ kv ∈ m, kv.1 ≠ k) : pyUpsert m k v = m ++ [(k, v)] := by
  have : m.any (fun kv => kv.1 == k) = false := by
    simp only [List.any_eq_false, beq_iff_eq]
    exact h
  simp [pyUpsert, this]

theorem foldl_upsert_eq_append :
    ∀ (l acc : List (String × PValue)), (l.map Prod.fst).Nodup →
      (∀ kv ∈ l, ∀ kv2 ∈ acc, kv.1 ≠ kv2.1) →
      l.foldl (fun m kv => pyUpsert m kv.1 kv.2) acc = acc ++ l := by
  intro l
  induction l with
  | nil => intro acc _ _; simp
  | cons hd rest ih =>
    intro acc hnd hdisj
    have hstep : pyUpsert acc hd.1 hd.2 = acc ++ [(hd.1, hd.2)] :=
      pyUpsert_of_not_mem hd.2 (fun kv2 hkv2 =>
        (hdisj hd (List.mem_cons_self hd rest) kv2 hkv2).symm)
    have hnd2 : (hd.1 :: rest.map Prod.fst).Nodup := by
      rw [← List.map_cons]; exact hnd
    have hndr : (rest.map Prod.fst).Nodup := (List.nodup_cons.mp hnd2).2
    have hhd : hd.1 ∉ rest.map Prod.fst := (List.nodup_cons.mp hnd2).1
    have hdisjr : ∀ kv ∈ rest, ∀ kv2 ∈ acc ++ [(hd.1, hd.2)], kv.1 ≠ kv2.1 := by
      intro kv hkv kv2 hkv2
      rcases List.mem_append.mp hkv2 with hkv2 | hkv2
      · exact hdisj kv (List.mem_cons_of_mem hd hkv) kv2 hkv2
      · have : kv2 = (hd.1, hd.2) := by simpa using hkv2
        subst this
        intro hk
        exact hhd (hk ▸ List.mem_map_of_mem Prod.fst hkv)
    calc ((hd :: rest).foldl (fun m kv => pyUpsert m kv.1 kv.2) acc)
        = rest.foldl (fun m kv => pyUpsert m kv.1 kv.2) (acc ++ [(hd.1, hd.2)]) := by
          simp [hstep]
      _ = (acc ++ [(hd.1, hd.2)]) ++ rest := ih (acc ++ [(hd.1, hd.2)]) hndr hdisjr
      _ = acc ++ hd :: rest := by simp

/-- Accumulating entries with pairwise-distinct keys into a Python
dict reproduces the entries unchanged. -/
theorem pyDict_eq_self {l : List (String × PValue)} (hnd : (l.map Prod.fst).Nodup) :
    pyDict l = l := by
  simpa using foldl_upsert_eq_append l [] hnd (by simp)

/-!  ## The flattening agrees with the spec's leaf-path description -/

/-- Dot-joining below an optional accumulated flat-key, matching
`newKey`. -/
def dotJoinPre : Option String → List String → String
  | none, p => dotJoin p
  | some q, p => dotJoin (q :: p)

theorem dotJoin_cons (k : String) {p : List String} (h : p ≠ []) :
    dotJoin (k :: p) = k ++ "." ++ dotJoin p := by
  cases p with
  | nil => exact absurd rfl h
  | cons a rest => rfl

theorem dotJoin_newKey (pre : Option String) (k : String) (p : List String) :
    dotJoin (newKey pre k :: p) = dotJoinPre pre (k :: p) := by
  cases pre with
  | none => rfl
  | some q =>
    cases p with
    | nil => rfl
    | cons a rest =>
      show (q ++ "." ++ k) ++ "." ++ dotJoin (a :: rest)
          = q ++ "." ++ (k ++ "." ++ dotJoin (a :: rest))
      simp [String.append_assoc]

mutual
theorem flattenVal_eq_spec : (key : String) → (v : PValue) →
    flattenVal key v = (specLeafVal v).map (fun pv => (dotJoin (key :: pv.1), pv.2))
  | key, .dict d => by
    rw [show flattenVal key (.dict d) = flattenEntries (some key) d from rfl,
      flattenEntries_eq_spec (some key) d]
    rfl
  | _, .bool _ => rfl
  | _, .int _ => rfl
  | _, .str _ => rfl
  | _, .bytes _ => rfl
  | _, .arr _ => rfl

theorem flattenEntries_eq_spec : (pre : Option String) → (d : List (String × PValue)) →
    flattenEntries pre d = (specLeafPaths d).map (fun pv => (dotJoinPre pre pv.1, pv.2))
  | _, [] => rfl
  | pre, (k, v) :: rest => by
    rw [show flattenEntries pre ((k, v) :: rest)
        = flattenVal (newKey pre k) v ++ flattenEntries pre rest from rfl]
    rw [flattenVal_eq_spec (newKey pre k) v, flattenEntries_eq_spec pre rest]
    rw [show specLeafPaths ((k, v) :: rest)
        = (specLeafVal v).map (fun pv => (k :: pv.1, pv.2)) ++ specLeafPaths rest from rfl]
    rw [List.map_append, List.map_map]
    congr 1
    apply List.map_congr_left
    intro pv _
    simp [dotJoin_newKey]
end

/-- The depth-first flat entries are exactly the spec's leaf entries:
one entry per key path reachable by nested-mapping-only descent, keyed
by the dot-joined path, arrays staying whole. -/
theorem flattenEntries_none_eq_specFlatten (d : List (String × PValue)) :
    flattenEntries none d = specFlatten d :=
  flattenEntries_eq_spec none d

/-!  ## Distinctness of flattened keys under well-formedness -/

/-- The flat keys of the spec's flattened mapping. -/
def specKeys (d : List (String × PValue)) : List String :=
  (specLeafPaths d).map (fun pv => dotJoin pv.1)

/-- The characters of a flat key up to its first dot. -/
def firstSeg (l : List Char) : List Char := l.takeWhile (fun c => c != '.')

theorem dotFree_iff {s : String} : dotFree s = true ↔ '.' ∉ s.data := by
  simp [dotFree, List.all_eq_true]
  constructor
  · intro h hmem
    exact (h '.' hmem) rfl
  · intro h c hc he
    exact h (he ▸ hc)

theorem firstSeg_of_not_mem {l : List Char} (h : '.' ∉ l) : firstSeg l = l := by
  induction l with
  | nil => rfl
  | cons c rest ih =>
    have hc : c ≠ '.' := fun he => h (he ▸ List.mem_cons_self c rest)
    have hr : '.' ∉ rest := fun hm => h (List.mem_cons_of_mem c hm)
    simp [firstSeg, List.takeWhile_cons, hc]
    simpa [firstSeg] using ih hr

theorem firstSeg_append {k r : List Char} (h : '.' ∉ k) :
    firstSeg (k ++ '.' :: r) = k := by
  induction k with
  | nil => simp [firstSeg, List.takeWhile_cons]
  | cons c rest ih =>
    have hc : c ≠ '.' := fun he => h (he ▸ List.mem_cons_self c rest)
    have hr : '.' ∉ rest := fun hm => h (List.mem_cons_of_mem c hm)
    simp [firstSeg, List.takeWhile_cons, hc] at ih ⊢
    exact ih hr

theorem data_append_dot (k r : String) : (k ++ "." ++ r).data = k.data ++ '.' :: r.data := by
  simp [String.data_append]

/-- The first dot-free segment of a dot-joined path is its head key. -/
theorem firstSeg_dotJoin {k : String} (hk : dotFree k = true) (p : List String) :
    firstSeg (dotJoin (k :: p)).data = k.data := by
  cases p with
  | nil => exact firstSeg_of_not_mem (dotFree_iff.mp hk)
  | cons a rest =>
    rw [dotJoin_cons k (by simp), data_append_dot]
    exact firstSeg_append (dotFree_iff.mp hk)

/-- Two dot-joined paths with dot-free head keys can only coincide if
the head keys coincide. -/
theorem dotJoin_head_eq {k1 k2 : String} (h1 : dotFree k1 = true) (h2 : dotFree k2 = true)
    {p1 p2 : List String} (he : dotJoin (k1 :: p1) = dotJoin (k2 :: p2)) : k1 = k2 := by
  have := congrArg (fun s => firstSeg s.data) he
  simp only [firstSeg_dotJoin h1, firstSeg_dotJoin h2] at this
  exact String.ext this

/-- Appending below a fixed dot-extended key is injective. -/
theorem append_dot_injective (k : String) :
    Function.Injective (fun s => k ++ "." ++ s) := by
  intro r1 r2 he
  have hd := congrArg String.data he
  simp only [data_append_dot] at hd
  exact String.ext (by simpa using List.append_cancel_left hd)

/-- Every leaf path is nonempty (it starts with the key of the entry
it descends through). -/
theorem specLeafPaths_ne_nil :
    ∀ (d : List (String × PValue)) (pv : List String × PValue),
      pv ∈ specLeafPaths d → pv.1 ≠ [] := by
  intro d
  induction d with
  | nil => intro pv h; simp [specLeafPaths] at h
  | cons hd rest ih =>
    intro pv h
    obtain ⟨k, v⟩ := hd
    rw [show specLeafPaths ((k, v) :: rest)
        = (specLeafVal v).map (fun pv => (k :: pv.1, pv.2)) ++ specLeafPaths rest from rfl] at h
    rcases List.mem_append.mp h with h | h
    · obtain ⟨qv, _, hqv⟩ := List.mem_map.mp h
      rw [← hqv]
      simp
    · exact ih pv h

/-- Every flat key of a dict names one of the dict's own keys as the
head of its path. -/
theorem specKeys_shape :
    ∀ (d : List (String × PValue)) (s : String), s ∈ specKeys d →
      ∃ kv, kv ∈ d ∧ ∃ p, s = dotJoin (kv.1 :: p) := by
  intro d
  induction d with
  | nil => intro s h; simp [specKeys, specLeafPaths] at h
  | cons hd rest ih =>
    intro s h
    obtain ⟨k, v⟩ := hd
    rw [show specKeys ((k, v) :: rest)
        = ((specLeafVal v).map (fun pv => (k :: pv.1, pv.2)) ++ specLeafPaths rest).map
            (fun pv => dotJoin pv.1) from rfl, List.map_append, List.map_map] at h
    rcases List.mem_append.mp h with h | h
    · obtain ⟨qv, _, hqv⟩ := List.mem_map.mp h
      exact ⟨(k, v), List.mem_cons_self _ _, qv.1, hqv.symm⟩
    · exact (ih s h).imp (fun kv hkv => ⟨List.mem_cons_of_mem _ hkv.1, hkv.2⟩)

theorem wfEntries_cons {k : String} {v : PValue} {rest : List (String × PValue)} :
    wfEntries ((k, v) :: rest) = true ↔
      dotFree k = true ∧ (∀ kv ∈ rest, kv.1 ≠ k) ∧ wfVal v = true ∧ wfEntries rest = true := by
  rw [show wfEntries ((k, v) :: rest)
      = (dotFree k && rest.all (fun kv => kv.1 != k) && wfVal v && wfEntries rest) from rfl]
  simp [List.all_eq_true, and_assoc]

theorem wf_keys_dotFree :
    ∀ (d : List (String × PValue)), wfEntries d = true → ∀ kv ∈ d, dotFree kv.1 = true := by
  intro d
  induction d with
  | nil => intro _ kv h; simp at h
  | cons hd rest ih =>
    intro hwf kv h
    obtain ⟨k, v⟩ := hd
    obtain ⟨hdf, _, _, hrest⟩ := wfEntries_cons.mp hwf
    rcases List.mem_cons.mp h with h | h
    · rw [h]; exact hdf
    · exact ih hrest kv h

mutual
/-- Flat keys contributed below a single dot-free key are pairwise
distinct when the value is well-formed. -/
theorem specKeysVal_nodup : (v : PValue) → (k : String) → wfVal v = true → dotFree k = true →
    ((specLeafVal v).map (fun pv => dotJoin (k :: pv.1))).Nodup
  | .dict d, k, hwf, hk => by
    have hnd := specKeys_nodup d hwf
    rw [show specLeafVal (.dict d) = specLeafPaths d from rfl]
    have hmapeq : (specLeafPaths d).map (fun pv => dotJoin (k :: pv.1))
        = (specKeys d).map (fun s => k ++ "." ++ s) := by
      rw [specKeys, List.map_map]
      apply List.map_congr_left
      intro pv hpv
      simp only [Function.comp]
      exact dotJoin_cons k (specLeafPaths_ne_nil d pv hpv)
    rw [hmapeq]
    exact hnd.map (append_dot_injective k)
  | .bool b, k, _, _ => by simp [specLeafVal]
  | .int n, k, _, _ => by simp [specLeafVal]
  | .str s, k, _, _ => by simp [specLeafVal]
  | .bytes bs, k, _, _ => by simp [specLeafVal]
  | .arr xs, k, _, _ => by simp [specLeafVal]

/-- The flat keys of a well-formed nested dict are pairwise
distinct. -/
theorem specKeys_nodup : (d : List (String × PValue)) → wfEntries d = true →
    (specKeys d).Nodup
  | [], _ => by simp [specKeys, specLeafPaths]
  | (k, v) :: rest, hwf => by
    obtain ⟨hdf, hdist, hv, hrest⟩ := wfEntries_cons.mp hwf
    have hA := specKeysVal_nodup v k hv hdf
    have hB := specKeys_nodup rest hrest
    rw [show specKeys ((k, v) :: rest)
        = ((specLeafVal v).map (fun pv => (k :: pv.1, pv.2)) ++ specLeafPaths rest).map
            (fun pv => dotJoin pv.1) from rfl, List.map_append, List.map_map]
    rw [List.nodup_append]
    refine ⟨by simpa using hA, hB, ?_⟩
    intro s hsA hsB
    obtain ⟨qv, _, hqv⟩ := List.mem_map.mp hsA
    obtain ⟨kv, hkv, p, hp⟩ := specKeys_shape rest s hsB
    have hkvdf : dotFree kv.1 = true := wf_keys_dotFree rest hrest kv hkv
    simp only [Function.comp] at hqv
    have : k = kv.1 := dotJoin_head_eq hdf hkvdf (hqv.trans hp)
    exact hdist kv hkv this.symm
end

/-- Under well-formedness, the spec-side flat keys are pairwise
distinct. -/
theorem specFlatten_keys_nodup {d : List (String × PValue)} (h : wfEntries d = true) :
    ((specFlatten d).map Prod.fst).Nodup := by
  have : (specFlatten d).map Prod.fst = specKeys d := by
    simp [specFlatten, specKeys, List.map_map]
  rw [this]
  exact specKeys_nodup d h

/-- Under well-formedness the Python-dict accumulation is the
identity, so `json_normalized_plist_dict` is exactly the spec's
flattened mapping. -/
theorem json_normalized_eq_specFlatten {d : List (String × PValue)}
    (h : wfEntries d = true) : json_normalized_plist_dict d = specFlatten d := by
  rw [json_normalized_plist_dict, flattenEntries_none_eq_specFlatten,
    pyDict_eq_self (specFlatten_keys_nodup h)]

/-!  ## Permutation of key insertion order at nested-mapping levels

`DictPerm d1 d2` holds exactly when `d2` can be obtained from `d1` by
re-ordering the entries of the top-level dict and, recursively, of any
dict reached by descending through nested mappings only.  Dicts nested
inside arrays are leaves of the flattening and are not touched — their
insertion order is part of the array's verbatim string form. -/

inductive DictPerm : List (String × PValue) → List (String × PValue) → Prop where
  | nil : DictPerm [] []
  | cons (k : String) (v : PValue) {l1 l2 : List (String × PValue)} :
      DictPerm l1 l2 → DictPerm ((k, v) :: l1) ((k, v) :: l2)
  | consDict (k : String) {d1 d2 l1 l2 : List (String × PValue)} :
      DictPerm d1 d2 → DictPerm l1 l2 →
      DictPerm ((k, .dict d1) :: l1) ((k, .dict d2) :: l2)
  | swap (a b : String × PValue) (l : List (String × PValue)) :
      DictPerm (a :: b :: l) (b :: a :: l)
  | trans {l1 l2 l3 : List (String × PValue)} :
      DictPerm l1 l2 → DictPerm l2 l3 → DictPerm l1 l3

theorem DictPerm.refl : ∀ l : List (String × PValue), DictPerm l l
  | [] => DictPerm.nil
  | (k, v) :: rest => DictPerm.cons k v (DictPerm.refl rest)

/-- Re-ordering keys at nested-mapping levels permutes the flat
entries (leaf values inside arrays are untouched, so the flat entries
themselves are unchanged up to order). -/
theorem DictPerm.flatten_perm {d1 d2 : List (String × PValue)} (h : DictPerm d1 d2) :
    ∀ pre, List.Perm (flattenEntries pre d1) (flattenEntries pre d2) := by
  induction h with
  | nil => intro _; exact List.Perm.refl _
  | cons k v _ ih =>
    intro pre
    exact List.Perm.append_left (flattenVal (newKey pre k) v) (ih pre)
  | consDict k _ _ ihd ihl =>
    intro pre
    exact List.Perm.append (ihd (some (newKey pre k))) (ihl pre)
  | swap a b l =>
    intro pre
    rw [show flattenEntries pre (a :: b :: l)
        = flattenVal (newKey pre a.1) a.2 ++ (flattenVal (newKey pre b.1) b.2
            ++ flattenEntries pre l) from rfl]
    rw [show flattenEntries pre (b :: a :: l)
        = flattenVal (newKey pre b.1) b.2 ++ (flattenVal (newKey pre a.1) a.2
            ++ flattenEntries pre l) from rfl]
    exact List.perm_append_comm_assoc _ _ _
  | trans _ _ ih1 ih2 =>
    intro pre
    exact (ih1 pre).trans (ih2 pre)

/-!  ## Keys resolving only to empty nested mappings -/

mutual
theorem onlyEmptyVal_flatten : (v : PValue) → onlyEmptyVal v = true →
    ∀ key, flattenVal key v = []
  | .dict d, h, key => by
    rw [show flattenVal key (.dict d) = flattenEntries (some key) d from rfl]
    exact onlyEmptyEntries_flatten d (by simpa [onlyEmptyVal] using h) (some key)
  | .bool _, h, _ => by simp [onlyEmptyVal] at h
  | .int _, h, _ => by simp [onlyEmptyVal] at h
  | .str _, h, _ => by simp [onlyEmptyVal] at h
  | .bytes _, h, _ => by simp [onlyEmptyVal] at h
  | .arr _, h, _ => by simp [onlyEmptyVal] at h

theorem onlyEmptyEntries_flatten : (d : List (String × PValue)) →
    onlyEmptyEntries d = true → ∀ pre, flattenEntries pre d = []
  | [], _, _ => rfl
  | (k, v) :: rest, h, pre => by
    have hp : onlyEmptyVal v = true ∧ onlyEmptyEntries rest = true := by
      simpa [onlyEmptyEntries, Bool.and_eq_true] using h
    rw [show flattenEntries pre ((k, v) :: rest)
        = flattenVal (newKey pre k) v ++ flattenEntries pre rest from rfl]
    rw [onlyEmptyVal_flatten v hp.1 (newKey pre k),
      onlyEmptyEntries_flatten rest hp.2 pre]
    rfl
end

/-!  ## Decoder case analysis helpers -/

theorem decode_both_fail {fm : FileModel} (hb : parseFailed fm.binaryParse = true)
    (hx : parseFailed fm.xmlParse = true) :
    plist_dict_from_path (.path (some fm)) = .error .invalidFile := by
  obtain ⟨b, x⟩ := fm
  simp only [plist_dict_from_path]
  cases b with
  | none =>
    cases x with
    | none => rfl
    | some v =>
      cases v <;> simp_all [parseFailed]
  | some v =>
    cases v <;> cases x <;> simp_all [parseFailed] <;>
      (rename_i w; cases w <;> simp_all [parseFailed])

/-!  # Claims -/

/-!  ## C1 -/

/-- C1 counterexample.  The claim quantifies over every
dictionary-rooted nested plist mapping, but plist keys may contain a
literal dot (the spec itself calls this an accepted ambiguity).  In
`{"a.b": 1, "a": {"b": 2}}` the two distinct leaf paths `["a.b"]`
(value 1) and `["a", "b"]` (value 2) dot-join to the same flat key
`"a.b"`, and the flat mapping holds a single entry with value 2: the
path `["a.b"]` has no entry carrying its value 1, so "exactly one
entry for each key path ... the entry's value being the value found at
that path" fails at this input. -/
theorem claim_C1_counterexample :
    specFlatten [("a.b", PValue.int 1), ("a", PValue.dict [("b", PValue.int 2)])]
      = [("a.b", PValue.int 1), ("a.b", PValue.int 2)] ∧
    json_normalized_plist_dict [("a.b", PValue.int 1), ("a", PValue.dict [("b", PValue.int 2)])]
      = [("a.b", PValue.int 2)] :=
  ⟨rfl, rfl⟩

/-- C1, amended: for every dictionary-rooted nested plist mapping
whose keys (at every nested-mapping level) are pairwise distinct and
contain no literal dot, the normalizer produces a flat mapping with
exactly one entry for each key path reachable by descending only
through nested mappings to a non-mapping value — keyed by the
dot-joined path and carrying that value; arrays are emitted as whole
leaf values and never descended into (this is what `specFlatten`
states, descending through `.dict` only). -/
theorem claim_C1_amended (d : List (String × PValue)) (h : wfEntries d = true) :
    json_normalized_plist_dict d = specFlatten d ∧
    ((specFlatten d).map Prod.fst).Nodup :=
  ⟨json_normalized_eq_specFlatten h, specFlatten_keys_nodup h⟩

/-- C1 witness: the spec's worked example
`{"a": "one", "b": 2, "c": {"d": {"e": false}}}` flattens to
`{"a": "one", "b": 2, "c.d.e": false}`. -/
theorem claim_C1_witness :
    json_normalized_plist_dict
        [("a", PValue.str "one"), ("b", PValue.int 2),
          ("c", PValue.dict [("d", PValue.dict [("e", PValue.bool false)])])]
      = specFlatten
          [("a", PValue.str "one"), ("b", PValue.int 2),
            ("c", PValue.dict [("d", PValue.dict [("e", PValue.bool false)])])] ∧
    specFlatten
        [("a", PValue.str "one"), ("b", PValue.int 2),
          ("c", PValue.dict [("d", PValue.dict [("e", PValue.bool false)])])]
      = [("a", PValue.str "one"), ("b", PValue.int 2), ("c.d.e", PValue.bool false)] :=
  ⟨(claim_C1_amended _ (by decide)).1, rfl⟩

/-!  ## C2 -/

/-- C2: the content digest of a flattened mapping is computed by
sorting the entries in ascending lexicographic order of their
dot-joined string key, stringifying and UTF-8 encoding each value in
sorted-key order, and feeding those byte sequences one at a time into
the streaming BLAKE2b accumulator (default digest size, abstracted as
`H`) with no separator bytes: the finalised hex digest equals `H` of
the separator-free concatenation of the per-value byte sequences. -/
theorem claim_C2_digest_pipeline (H : List Nat → String) (props : List (String × PValue)) :
    plistHashDigest H props
        = H (((sortByKey props).map (fun kv => utf8Encode (pyStr kv.2))).flatten) ∧
    List.Sorted keyLe (sortByKey props) ∧ List.Perm (sortByKey props) props :=
  ⟨(plistHashDigest_eq_stream H props).trans (congrArg H (plistContentStream_eq props)),
    sortByKey_sorted props, sortByKey_perm props⟩

/-!  ## C9 -/

/-- C9: a key whose value resolves only to empty nested mappings (in
particular, an empty mapping) contributes zero entries to the
flattened mapping — the key silently disappears, and the flat result
is exactly that of the remaining entries. -/
theorem claim_C9_empty_dropped (k : String) (d rest : List (String × PValue))
    (h : onlyEmptyVal (.dict d) = true) :
    (∀ pre, flattenEntries pre ((k, .dict d) :: rest) = flattenEntries pre rest) ∧
    json_normalized_plist_dict ((k, .dict d) :: rest) = json_normalized_plist_dict rest := by
  have hflat : ∀ pre, flattenEntries pre ((k, .dict d) :: rest) = flattenEntries pre rest := by
    intro pre
    rw [show flattenEntries pre ((k, .dict d) :: rest)
        = flattenVal (newKey pre k) (.dict d) ++ flattenEntries pre rest from rfl]
    rw [onlyEmptyVal_flatten (.dict d) h (newKey pre k)]
    rfl
  exact ⟨hflat, by rw [json_normalized_plist_dict, hflat none]; rfl⟩

/-- C9 witness: `{"a": {}, "b": 1}` flattens to `{"b": 1}`. -/
theorem claim_C9_witness :
    json_normalized_plist_dict [("a", PValue.dict []), ("b", PValue.int 1)]
      = json_normalized_plist_dict [("b", PValue.int 1)] ∧
    json_normalized_plist_dict [("b", PValue.int 1)] = [("b", PValue.int 1)] :=
  ⟨(claim_C9_empty_dropped "a" [] [("b", PValue.int 1)] (by decide)).2, rfl⟩

/-!  ## C3 -/

theorem strSeries_congr {p q : List (String × PValue)} (h : sortByKey p = sortByKey q) :
    strSeries p = strSeries q := by
  simp [strSeries, h]

theorem plistHashDigest_congr {p q : List (String × PValue)} (h : strSeries p = strSeries q) :
    ∀ H, plistHashDigest H p = plistHashDigest H q := by
  intro H
  simp [plistHashDigest, h]

/-- C3 counterexample.  Two file-backed entities whose data accesses
succeed, decoding to `{"a": 1}` and `{"b": 1}`: their sorted
stringified value sequences (both `["1"]`) and hence their content
digests are equal — the hashed byte streams coincide, and the digest
is a function of the stream — yet the equality test returns false,
because `pandas.Series.equals` also compares the index (the keys).
So "equal iff digests are equal (equivalently iff the sorted value
sequences match)" fails at this input. -/
theorem claim_C3_counterexample :
    Plist.properties ⟨"p1.plist"⟩ (some ⟨some (.dict [("a", PValue.int 1)]), none⟩)
      = .ok [("a", PValue.int 1)] ∧
    Plist.properties ⟨"p2.plist"⟩ (some ⟨some (.dict [("b", PValue.int 1)]), none⟩)
      = .ok [("b", PValue.int 1)] ∧
    plistContentStream [("a", PValue.int 1)] = plistContentStream [("b", PValue.int 1)] ∧
    plistEq [("a", PValue.int 1)] [("b", PValue.int 1)] = false :=
  ⟨rfl, rfl, rfl, rfl⟩

/-- C3, amended: the equality test returns true exactly when the
sorted-by-key stringified series — keys and values both — coincide;
equality of the sorted value sequences (equivalently of the digests)
is necessary but not sufficient, since the digest ignores the keys.
Equality depends only on the two property mappings (never on file
path, encoding kind or metadata, which `__eq__` does not read) and is
invariant under re-ordering of the entries. -/
theorem claim_C3_amended (p1 p2 : List (String × PValue)) :
    (plistEq p1 p2 = true ↔ strSeries p1 = strSeries p2) ∧
    (plistEq p1 p2 = true → ∀ H, plistHashDigest H p1 = plistHashDigest H p2) ∧
    (∀ p1' : List (String × PValue), List.Perm p1 p1' → (p1.map Prod.fst).Nodup →
      plistEq p1' p2 = plistEq p1 p2) := by
  refine ⟨beq_iff_eq, ?_, ?_⟩
  · intro h
    exact plistHashDigest_congr ((beq_iff_eq (a := strSeries p1)).mp h)
  · intro p1' hperm hnd
    have : strSeries p1' = strSeries p1 :=
      strSeries_congr (sortByKey_eq_of_perm hperm.symm
        (((hperm.map Prod.fst).nodup_iff).mp hnd))
    simp [plistEq, this]

/-- C3 witness: equality is invariant under re-ordering of the
entries, and holds for two identical mappings. -/
theorem claim_C3_witness :
    plistEq [("b", PValue.int 2), ("a", PValue.str "x")]
        [("a", PValue.str "x"), ("b", PValue.int 2)]
      = plistEq [("a", PValue.str "x"), ("b", PValue.int 2)]
          [("a", PValue.str "x"), ("b", PValue.int 2)] ∧
    plistEq [("a", PValue.str "x"), ("b", PValue.int 2)]
        [("a", PValue.str "x"), ("b", PValue.int 2)] = true :=
  ⟨(claim_C3_amended [("a", PValue.str "x"), ("b", PValue.int 2)]
      [("a", PValue.str "x"), ("b", PValue.int 2)]).2.2
      [("b", PValue.int 2), ("a", PValue.str "x")]
      (List.Perm.swap ("b", PValue.int 2) ("a", PValue.str "x") [])
      (by decide), beq_self_eq_true _⟩

/-!  ## C4 -/

theorem decode_binary_ok {fm : FileModel} {d : List (String × PValue)}
    (h : fm.binaryParse = some (.dict d)) :
    plist_dict_from_path (.path (some fm)) = .ok (d, "binary") := by
  obtain ⟨b, x⟩ := fm
  simp only at h
  subst h
  rfl

theorem decode_xml_ok {fm : FileModel} {d : List (String × PValue)}
    (hb : parseFailed fm.binaryParse = true) (hx : fm.xmlParse = some (.dict d)) :
    plist_dict_from_path (.path (some fm)) = .ok (d, "xml") := by
  obtain ⟨b, x⟩ := fm
  simp only at hb hx
  subst hx
  cases b with
  | none => rfl
  | some v => cases v <;> simp_all [parseFailed] <;> rfl

/-- C4 counterexample.  `{"a": [{"x": 1, "y": 2}]}` and
`{"a": [{"y": 2, "x": 1}]}` differ only by a permutation of key
insertion order at a nesting level of the mapping — the dict nested
inside the array (the two inner dicts are `DictPerm`-related).  The
hashed byte streams differ, because the array is hashed via its
string form, which displays the inner dict in insertion order: the
digests are the hash of different streams, so the claimed invariance
under "any permutation of key insertion order at every nesting
level" fails at this input. -/
theorem claim_C4_counterexample :
    DictPerm [("x", PValue.int 1), ("y", PValue.int 2)]
      [("y", PValue.int 2), ("x", PValue.int 1)] ∧
    plistContentStream (json_normalized_plist_dict
        [("a", PValue.arr [PValue.dict [("x", PValue.int 1), ("y", PValue.int 2)]])])
      ≠ plistContentStream (json_normalized_plist_dict
        [("a", PValue.arr [PValue.dict [("y", PValue.int 2), ("x", PValue.int 1)]])]) :=
  ⟨DictPerm.swap ("x", PValue.int 1) ("y", PValue.int 2) [], by decide⟩

/-- C4, amended: for every nested plist mapping whose keys, at every
nested-mapping level, are pairwise distinct and contain no literal
dot (`wfEntries` — the same restriction as C1), the content digest of
the flattened mapping is invariant under any permutation of key
insertion order at the nested-mapping levels the normalizer descends
through; in particular such a mapping decoded from a binary-encoded
file and a key-order permutation of it decoded from an XML-encoded
file produce equal digests.  Outside this restriction the invariance
fails twice over: dicts nested inside arrays are part of the array's
verbatim leaf, so their insertion order affects the digest (the
counterexample above), and with dotted keys two dict-descent paths
can collide on one flat key, whose surviving value — and hence the
digest — depends on the order the colliding entries are reached. -/
theorem claim_C4_amended (d1 d2 : List (String × PValue)) (hwf : wfEntries d1 = true)
    (hperm : DictPerm d1 d2) :
    (∀ H, plistHashDigest H (json_normalized_plist_dict d1)
        = plistHashDigest H (json_normalized_plist_dict d2)) ∧
    (∀ fm1 fm2 : FileModel, fm1.binaryParse = some (.dict d1) →
      parseFailed fm2.binaryParse = true → fm2.xmlParse = some (.dict d2) →
      plist_dict_from_path (.path (some fm1)) = .ok (d1, "binary") ∧
      plist_dict_from_path (.path (some fm2)) = .ok (d2, "xml")) := by
  have hfl : List.Perm (flattenEntries none d1) (flattenEntries none d2) :=
    hperm.flatten_perm none
  have hnd1 : ((flattenEntries none d1).map Prod.fst).Nodup := by
    rw [flattenEntries_none_eq_specFlatten]
    exact specFlatten_keys_nodup hwf
  have hnd2 : ((flattenEntries none d2).map Prod.fst).Nodup :=
    ((hfl.map Prod.fst).nodup_iff).mp hnd1
  have hj1 : json_normalized_plist_dict d1 = flattenEntries none d1 := pyDict_eq_self hnd1
  have hj2 : json_normalized_plist_dict d2 = flattenEntries none d2 := pyDict_eq_self hnd2
  constructor
  · intro H
    rw [hj1, hj2]
    exact plistHashDigest_congr (strSeries_congr (sortByKey_eq_of_perm hfl hnd1)) H
  · intro fm1 fm2 h1 h2 h3
    exact ⟨decode_binary_ok h1, decode_xml_ok h2 h3⟩

/-- C4 witness: a top-level key-order permutation, stored once binary
and once XML encoded, decodes with the respective tags and yields
equal digests. -/
theorem claim_C4_witness :
    plistHashDigest (fun bs => toString bs.length)
        (json_normalized_plist_dict [("b", PValue.int 2), ("a", PValue.int 1)])
      = plistHashDigest (fun bs => toString bs.length)
          (json_normalized_plist_dict [("a", PValue.int 1), ("b", PValue.int 2)]) ∧
    plist_dict_from_path
        (.path (some ⟨some (.dict [("b", PValue.int 2), ("a", PValue.int 1)]), none⟩))
      = .ok ([("b", PValue.int 2), ("a", PValue.int 1)], "binary") ∧
    plist_dict_from_path
        (.path (some ⟨none, some (.dict [("a", PValue.int 1), ("b", PValue.int 2)])⟩))
      = .ok ([("a", PValue.int 1), ("b", PValue.int 2)], "xml") := by
  have h := claim_C4_amended [("b", PValue.int 2), ("a", PValue.int 1)]
    [("a", PValue.int 1), ("b", PValue.int 2)] (by decide)
    (DictPerm.swap ("b", PValue.int 2) ("a", PValue.int 1) [])
  exact ⟨h.1 (fun bs => toString bs.length),
    (h.2 ⟨some (.dict [("b", PValue.int 2), ("a", PValue.int 1)]), none⟩
      ⟨none, some (.dict [("a", PValue.int 1), ("b", PValue.int 2)])⟩ rfl rfl rfl).1,
    (h.2 ⟨some (.dict [("b", PValue.int 2), ("a", PValue.int 1)]), none⟩
      ⟨none, some (.dict [("a", PValue.int 1), ("b", PValue.int 2)])⟩ rfl rfl rfl).2⟩

/-!  ## C5 -/

/-- C5: for an existing file, the decoder first attempts the binary
parse — succeeding with tag `"binary"` exactly when the binary parser
returns a mapping; on any binary failure (parser error or non-mapping
root) it attempts the XML parse of the same bytes with the same
must-yield-a-mapping check, succeeding with tag `"xml"`; it raises
`InvalidFile` exactly when both attempts fail; a missing file raises
`NotFound`. -/
theorem claim_C5_decoder (fm : FileModel) :
    (∀ d, plist_dict_from_path (.path (some fm)) = .ok (d, "binary")
        ↔ fm.binaryParse = some (.dict d)) ∧
    (∀ d, plist_dict_from_path (.path (some fm)) = .ok (d, "xml")
        ↔ parseFailed fm.binaryParse = true ∧ fm.xmlParse = some (.dict d)) ∧
    (plist_dict_from_path (.path (some fm)) = .error .invalidFile
        ↔ parseFailed fm.binaryParse = true ∧ parseFailed fm.xmlParse = true) ∧
    plist_dict_from_path (.path none) = .error .notFound := by
  obtain ⟨b, x⟩ := fm
  refine ⟨?_, ?_, ?_, rfl⟩ <;>
    (try intro d) <;>
    (cases b with
     | none =>
       cases x with
       | none => simp [plist_dict_from_path, parseFailed]
       | some w => cases w <;> simp [plist_dict_from_path, parseFailed]
     | some v =>
       cases x with
       | none => cases v <;> simp [plist_dict_from_path, parseFailed]
       | some w => cases v <;> cases w <;> simp [plist_dict_from_path, parseFailed])

/-- C5 witness: bytes whose binary parse fails but which parse as an
XML plist with a mapping root decode with tag `"xml"`. -/
theorem claim_C5_witness :
    plist_dict_from_path (.path (some ⟨none, some (.dict [("k", PValue.int 5)])⟩))
      = .ok ([("k", PValue.int 5)], "xml") :=
  ((claim_C5_decoder ⟨none, some (.dict [("k", PValue.int 5)])⟩).2.1
    [("k", PValue.int 5)]).mpr ⟨rfl, rfl⟩

/-!  ## C6 -/

/-- C6 counterexample.  For the flattened mapping `{"k": b"ab"}` the
byte stream fed to the hasher by `Plist.__hash__` is the UTF-8
encoding of the display-string form `repr(b"ab")` — the five bytes of
the text `b` quote `ab` quote — not the two raw bytes `[97, 98]`: the
`.transform(str)` in `__hash__` stringifies byte values before
`blake2b_hash_iterable` ever sees them, so its verbatim-bytes branch
is unreachable from the entity digest path. -/
theorem claim_C6_counterexample :
    plistContentStream [("k", PValue.bytes [97, 98])]
      = utf8Encode (pyStr (PValue.bytes [97, 98])) ∧
    plistContentStream [("k", PValue.bytes [97, 98])] = [98, 39, 97, 98, 39] ∧
    plistContentStream [("k", PValue.bytes [97, 98])] ≠ [97, 98] :=
  ⟨rfl, rfl, by decide⟩

/-- C6, amended: `blake2b_hash_iterable` itself does use byte values
verbatim (`to_bytes` returns them unchanged), but the digest
computation of `Plist.__hash__` stringifies every value — bytes
included — with `str` before hashing, so a byte-sequence value
contributes the UTF-8 encoding of its display-string (`repr`) form,
like every other value. -/
theorem claim_C6_amended :
    (∀ bs : List Nat, to_bytes (PValue.bytes bs) = bs) ∧
    (∀ props : List (String × PValue), plistContentStream props
        = ((sortByKey props).map (fun kv => utf8Encode (pyStr kv.2))).flatten) ∧
    (∀ (k : String) (bs : List Nat), plistContentStream [(k, PValue.bytes bs)]
        = utf8Encode (pyStr (PValue.bytes bs))) := by
  refine ⟨fun bs => rfl, plistContentStream_eq, fun k bs => ?_⟩
  simp [plistContentStream, strSeries, sortByKey, List.insertionSort]

/-!  ## C7 -/

/-- C7: a file-backed entity caches no decoded result — each data
access decodes the file's current state afresh.  The entity owns only
its path (`Plist` has a single field), so the outcome of `properties`
is a function of the backing file's state at access time alone: if
the file has been deleted the access raises `NotFound`; if its bytes
have been replaced by content invalid in both plist formats the
access raises `InvalidFile`.  Values returned by earlier accesses are
unaffected (the model is pure: an earlier access is a different
application of the same function). -/
theorem claim_C7_fresh_reads (p : Plist) :
    p.properties none = Except.error PlistError.notFound ∧
    (∀ fm : FileModel, parseFailed fm.binaryParse = true → parseFailed fm.xmlParse = true →
      p.properties (some fm) = Except.error PlistError.invalidFile) := by
  refine ⟨rfl, fun fm hb hx => ?_⟩
  simp [Plist.properties, decode_both_fail hb hx]

/-- C7 witness: after deletion the access reports `NotFound`; after
corruption to bytes invalid in both formats it reports
`InvalidFile`. -/
theorem claim_C7_witness :
    Plist.properties ⟨"x.plist"⟩ none = Except.error PlistError.notFound ∧
    Plist.properties ⟨"x.plist"⟩ (some ⟨none, none⟩)
      = Except.error PlistError.invalidFile :=
  ⟨(claim_C7_fresh_reads ⟨"x.plist"⟩).1,
    (claim_C7_fresh_reads ⟨"x.plist"⟩).2 ⟨none, none⟩ rfl rfl⟩

/-!  ## C8 -/

/-- C8 counterexample.  A non-path-like argument makes
`plist_dict_from_path` raise `plistlib.InvalidFileException` — the
`except TypeError` branch re-raises it as `InvalidFile`, the very
condition the claim reserves for undecodable bytes — not a distinct
`InvalidInput` condition (which exists in the spec's taxonomy only;
the code never raises it). -/
theorem claim_C8_counterexample :
    plist_dict_from_path PlistInput.notPathLike = .error PlistError.invalidFile ∧
    PlistError.invalidFile ≠ PlistError.invalidInput :=
  ⟨rfl, by decide⟩

/-- C8, amended: a non-path-like argument fails with the same
`InvalidFile` condition used for undecodable bytes; the decoder's
only error conditions are `InvalidFile` and `NotFound`, and no
distinct `InvalidInput` condition is ever produced. -/
theorem claim_C8_amended :
    (∀ (input : PlistInput) (e : PlistError), plist_dict_from_path input = .error e →
      e = PlistError.invalidFile ∨ e = PlistError.notFound) ∧
    plist_dict_from_path PlistInput.notPathLike = .error PlistError.invalidFile := by
  refine ⟨fun input e h => ?_, rfl⟩
  cases input with
  | notPathLike =>
    simp only [plist_dict_from_path] at h
    exact Or.inl (Except.error.inj h).symm
  | path o =>
    cases o with
    | none =>
      simp only [plist_dict_from_path] at h
      exact Or.inr (Except.error.inj h).symm
    | some fm =>
      obtain ⟨b, x⟩ := fm
      cases b with
      | none =>
        cases x with
        | none => exact Or.inl (Except.error.inj h).symm
        | some w => cases w <;> simp_all [plist_dict_from_path]
      | some v =>
        cases x with
        | none => cases v <;> simp_all [plist_dict_from_path]
        | some w => cases v <;> cases w <;> simp_all [plist_dict_from_path]

/-- C8 witness: the blanket error classification applied at the
non-path-like input. -/
theorem claim_C8_witness :
    PlistError.invalidFile = PlistError.invalidFile ∨
      PlistError.invalidFile = PlistError.notFound :=
  claim_C8_amended.1 PlistInput.notPathLike PlistError.invalidFile claim_C8_amended.2

/-!  ## C10 -/

/-- C10: a scan skips a candidate `.plist` file whose decode raises
`InvalidFile` (`Plist.__init__` can raise nothing else) and continues
with the remaining candidates: the output over
`pre ++ [corrupt] ++ post` is exactly the output over `pre` followed
by the output over `post` — the scan never aborts because one file
among many is corrupt. -/
theorem claim_C10_skip_invalid (pre post : List (String × Option FileModel)) (name : String)
    (fm : FileModel) (hb : parseFailed fm.binaryParse = true)
    (hx : parseFailed fm.xmlParse = true) :
    find_plist_files (pre ++ (name, some fm) :: post)
      = find_plist_files pre ++ find_plist_files post := by
  by_cases hn : pyEndsWith name ".plist" = true
  · simp [find_plist_files, List.filter_append, List.filter_cons, hn,
      List.filterMap_append, List.filterMap_cons, Plist.init, decode_both_fail hb hx]
  · simp [find_plist_files, List.filter_append, List.filter_cons, hn,
      List.filterMap_append]

/-- C10 witness: a corrupt file between two valid ones is omitted and
both neighbours are still yielded. -/
theorem claim_C10_witness :
    find_plist_files
        [("g.plist", some ⟨some (PValue.dict []), none⟩),
          ("bad.plist", some ⟨none, none⟩),
          ("h.plist", some ⟨some (PValue.dict []), none⟩)]
      = [⟨"g.plist"⟩, ⟨"h.plist"⟩] := by
  rw [show [("g.plist", some (⟨some (PValue.dict []), none⟩ : FileModel)),
        ("bad.plist", some (⟨none, none⟩ : FileModel)),
        ("h.plist", some (⟨some (PValue.dict []), none⟩ : FileModel))]
      = [("g.plist", some (⟨some (PValue.dict []), none⟩ : FileModel))]
          ++ ("bad.plist", some (⟨none, none⟩ : FileModel))
            :: [("h.plist", some (⟨some (PValue.dict []), none⟩ : FileModel))] from rfl]
  rw [claim_C10_skip_invalid _ _ "bad.plist" ⟨none, none⟩ rfl rfl]
  rfl
